import Mathlib

/-!
Shallow embedding of the c-ds-lib container library (list, stack, queue,
binary search tree) and proofs of the specification claims.

Modelling conventions, shared by all four containers:
- A C pointer that may be NULL is modelled as an Option.  A container handle
  is Option (container); a payload argument is Option α (payloads are opaque
  void pointers owned by the caller, modelled by an arbitrary type α);
  a function-pointer argument (comparator, destructor) is an Option as well.
- The caller-supplied three-way comparator int cmp(const void a, const void b)
  is modelled as a function α → α → Int.
- size_t counters are modelled as Nat.  The C code decrements with size--,
  which on size_t wraps at 0; in every reachable state of the API the cached
  size equals the number of nodes, and a decrement only happens after a node
  was found, so the wrap is unreachable and Nat subtraction is faithful there.
- Allocation (ds_alloc) can fail nondeterministically; each allocating
  operation takes an extra Boolean alloc_ok telling whether the single node
  allocation it performs succeeds.  This mirrors the single malloc call per
  mutating operation in the C code.
- ds_free only releases memory; freeing a node is dropping it from the model.
  The observable side effect of the teardown functions is the sequence of
  payloads handed to the caller-supplied destructor, which the model returns
  as a list (in the order the C code invokes the destructor).
-/

namespace DS

/-- Error codes of the library, from include/ds.h (enum ds_error). -/
inductive ds_error where
  | DS_OK
  | DS_ERR_OOM
  | DS_ERR_INVALID
  | DS_ERR_NOTFOUND
  | DS_ERR_NULLARG
  deriving DecidableEq, Repr

export ds_error (DS_OK DS_ERR_OOM DS_ERR_INVALID DS_ERR_NOTFOUND DS_ERR_NULLARG)

/-! ## Binary search tree (src/tree.c) -/

/-- Node of the binary tree: struct ds_tree_node { data; left; right }.
A NULL child pointer is the nil constructor. -/
inductive ds_tree_node (α : Type) where
  | nil : ds_tree_node α
  | node : α → ds_tree_node α → ds_tree_node α → ds_tree_node α
  deriving DecidableEq, Repr

/-- Container state: struct ds_tree { root; size }. -/
structure ds_tree (α : Type) where
  root : ds_tree_node α
  size : Nat
  deriving DecidableEq, Repr

namespace Tree

variable {α : Type}

/-- count_nodes from tree.c: number of nodes of a subtree. -/
def count_nodes : ds_tree_node α → Nat
  | .nil => 0
  | .node _ l r => 1 + count_nodes l + count_nodes r

/-- In-order traversal (left, self, right) of a subtree.  This is the
enumeration order the specification uses to state the ordering invariant. -/
def inorder : ds_tree_node α → List α
  | .nil => []
  | .node d l r => inorder l ++ d :: inorder r

/-- Payload stored at the root of a subtree, none for an empty subtree. -/
def root_data : ds_tree_node α → Option α
  | .nil => none
  | .node d _ _ => some d

/-- find_min of tree.c applied to the node (node d l _): it walks left
pointers while they are non-NULL, so the result is the data of the leftmost
node of that subtree. -/
def tree_min_data (d : α) : ds_tree_node α → α
  | .nil => d
  | .node d2 l2 _ => tree_min_data d2 l2

/-- Unlinking of the leftmost node performed by the two-children branch of
ds_tree_remove: the successor walk tracks successor_parent, and the
successor's right child is spliced into the slot the successor occupied. -/
def tree_remove_min : ds_tree_node α → ds_tree_node α
  | .nil => .nil
  | .node _ .nil r => r
  | .node d (.node d2 l2 r2) r => .node d (tree_remove_min (.node d2 l2 r2)) r

/-- Leftmost node (as a whole subtree) of a subtree; nil for nil.  Used to
talk about the in-order successor chosen by ds_tree_remove. -/
def leftmost_subtree : ds_tree_node α → ds_tree_node α
  | .nil => .nil
  | .node d .nil r => .node d .nil r
  | .node _ (.node d2 l2 r2) _ => leftmost_subtree (.node d2 l2 r2)

/-- Descent loop shared by ds_tree_insert / ds_tree_find / ds_tree_remove,
returning the whole subtree rooted at the node where the comparator
returned 0, or none if the descent bottoms out. -/
def tree_find_subtree (cmp : α → α → Int) (target : α) :
    ds_tree_node α → Option (ds_tree_node α)
  | .nil => none
  | .node d l r =>
    let comparison := cmp target d
    if comparison < 0 then tree_find_subtree cmp target l
    else if comparison > 0 then tree_find_subtree cmp target r
    else some (.node d l r)

/-- Insertion descent of ds_tree_insert.  Returns the new subtree together
with the flag telling whether a node was linked (false on an equal key:
the C code frees the would-be node and reports success, leaving the tree
unchanged and the size untouched). -/
def tree_insert_go (cmp : α → α → Int) (data : α) :
    ds_tree_node α → ds_tree_node α × Bool
  | .nil => (.node data .nil .nil, true)
  | .node d l r =>
    let comparison := cmp data d
    if comparison < 0 then
      let res := tree_insert_go cmp data l
      (.node d res.1 r, res.2)
    else if comparison > 0 then
      let res := tree_insert_go cmp data r
      (.node d l res.1, res.2)
    else
      (.node d l r, false)

/-- Removal descent of ds_tree_remove: none when the target is not found,
otherwise the new subtree.  The three cases of the C code (leaf, one child,
two children with successor promotion) appear in the equal-key branch. -/
def tree_remove_go (cmp : α → α → Int) (target : α) :
    ds_tree_node α → Option (ds_tree_node α)
  | .nil => none
  | .node d l r =>
    let comparison := cmp target d
    if comparison < 0 then
      match tree_remove_go cmp target l with
      | none => none
      | some l2 => some (.node d l2 r)
    else if comparison > 0 then
      match tree_remove_go cmp target r with
      | none => none
      | some r2 => some (.node d l r2)
    else
      match l, r with
      | .nil, .nil => some .nil
      | .nil, .node rd rl rr => some (.node rd rl rr)
      | .node ld ll lr, .nil => some (.node ld ll lr)
      | .node ld ll lr, .node rd rl rr =>
        some (.node (tree_min_data rd rl) (.node ld ll lr)
          (tree_remove_min (.node rd rl rr)))

/-- Destructor invocation order of free_subtree: left subtree, right
subtree, then the node's own payload (post-order). -/
def free_subtree_order : ds_tree_node α → List α
  | .nil => []
  | .node d l r => free_subtree_order l ++ free_subtree_order r ++ [d]

/-- Auxiliary predicate: p holds of every payload of the subtree. -/
def tree_all (p : α → Bool) : ds_tree_node α → Bool
  | .nil => true
  | .node d l r => p d && tree_all p l && tree_all p r

/-- Binary-search-tree ordering invariant under a caller comparator: at
every node, every payload of the left subtree compares below the node's
payload and every payload of the right subtree compares above it. -/
def is_bst (cmp : α → α → Int) : ds_tree_node α → Bool
  | .nil => true
  | .node d l r =>
    tree_all (fun y => decide (cmp y d < 0)) l &&
    tree_all (fun y => decide (0 < cmp y d)) r &&
    is_bst cmp l && is_bst cmp r

/-- Decidable test: the descent for the target stops at a node that has two
non-empty children (the two-children case of ds_tree_remove). -/
def tree_found_two (cmp : α → α → Int) (target : α) (t : ds_tree_node α) :
    Bool :=
  match tree_find_subtree cmp target t with
  | some (.node _ (.node _ _ _) (.node _ _ _)) => true
  | _ => false

end Tree

open Tree

variable {α : Type}

/-- ds_tree_create: a fresh tree with root = NULL and size = 0. -/
def ds_tree_create : ds_tree α := { root := .nil, size := 0 }

/-- ds_tree_insert.  NULL tree, data or comparator give DS_ERR_NULLARG;
a failed node allocation gives DS_ERR_OOM before any mutation; otherwise
the descent links the node (or discards it on an equal key) and the size
is incremented exactly when a node was linked. -/
def ds_tree_insert (T : Option (ds_tree α)) (data : Option α)
    (cmp : Option (α → α → Int)) (alloc_ok : Bool) :
    ds_error × Option (ds_tree α) :=
  match T, data, cmp with
  | some t, some d, some c =>
    if alloc_ok then
      let res := tree_insert_go c d t.root
      (DS_OK, some { root := res.1, size := if res.2 then t.size + 1 else t.size })
    else
      (DS_ERR_OOM, some t)
  | _, _, _ => (DS_ERR_NULLARG, T)

/-- ds_tree_find: descent by comparator, the stored payload on equality,
NULL when absent or when any argument is NULL. -/
def ds_tree_find (T : Option (ds_tree α)) (target : Option α)
    (cmp : Option (α → α → Int)) : Option α :=
  match T, target, cmp with
  | some t, some tg, some c =>
    match tree_find_subtree c tg t.root with
    | some (.node d _ _) => some d
    | _ => none
  | _, _, _ => none

/-- ds_tree_remove: NULL arguments give DS_ERR_NULLARG, a missed descent
gives DS_ERR_NOTFOUND with the tree untouched, otherwise the node is
removed (three cases) and the size decremented. -/
def ds_tree_remove (T : Option (ds_tree α)) (target : Option α)
    (cmp : Option (α → α → Int)) : ds_error × Option (ds_tree α) :=
  match T, target, cmp with
  | some t, some tg, some c =>
    match tree_remove_go c tg t.root with
    | none => (DS_ERR_NOTFOUND, some t)
    | some root2 => (DS_OK, some { root := root2, size := t.size - 1 })
  | _, _, _ => (DS_ERR_NULLARG, T)

/-- ds_tree_size: cached size, 0 for a NULL handle. -/
def ds_tree_size : Option (ds_tree α) → Nat
  | none => 0
  | some t => t.size

/-- ds_tree_is_empty: C int result, 1 when the handle is NULL or the root
pointer is NULL, else 0. -/
def ds_tree_is_empty : Option (ds_tree α) → Nat
  | none => 1
  | some t => match t.root with | .nil => 1 | _ => 0

/-- ds_tree_free: DS_ERR_NULLARG for a NULL handle with no side effect;
otherwise every node is released and the result lists the payloads passed
to the destructor (empty when no destructor is supplied). -/
def ds_tree_free (T : Option (ds_tree α)) (with_destructor : Bool) :
    ds_error × List α :=
  match T with
  | none => (DS_ERR_NULLARG, [])
  | some t => (DS_OK, if with_destructor then free_subtree_order t.root else [])

/-! ## Linked list (src/list.c) -/

/-- Container state: struct ds_list { head; tail; size }.  The chain of
nodes reachable from head is the list nodes (head first); the cached tail
pointer designates the last node of that chain and carries no further
state, so it is not a separate field of the model. -/
structure ds_list (α : Type) where
  nodes : List α
  size : Nat
  deriving DecidableEq, Repr

/-- ds_list_create: fresh list, head = tail = NULL, size = 0. -/
def ds_list_create : ds_list α := { nodes := [], size := 0 }

/-- ds_list_push_front: NULL handle or payload give DS_ERR_NULLARG, a failed
allocation DS_ERR_OOM with the list untouched, otherwise the node becomes
the new head (and tail when the list was empty) and size is incremented. -/
def ds_list_push_front (L : Option (ds_list α)) (data : Option α)
    (alloc_ok : Bool) : ds_error × Option (ds_list α) :=
  match L, data with
  | some l, some d =>
    if alloc_ok then
      (DS_OK, some { nodes := d :: l.nodes, size := l.size + 1 })
    else
      (DS_ERR_OOM, some l)
  | _, _ => (DS_ERR_NULLARG, L)

/-- ds_list_push_back: same contract as push_front, with the node linked
after the tail (and becoming head as well when the list was empty). -/
def ds_list_push_back (L : Option (ds_list α)) (data : Option α)
    (alloc_ok : Bool) : ds_error × Option (ds_list α) :=
  match L, data with
  | some l, some d =>
    if alloc_ok then
      (DS_OK, some { nodes := l.nodes ++ [d], size := l.size + 1 })
    else
      (DS_ERR_OOM, some l)
  | _, _ => (DS_ERR_NULLARG, L)

/-- ds_list_pop_front: NULL on a NULL or empty list, otherwise the head
node is detached and released and its payload returned.  The result pairs
the returned payload with the list state after the call. -/
def ds_list_pop_front (L : Option (ds_list α)) :
    Option α × Option (ds_list α) :=
  match L with
  | none => (none, none)
  | some l =>
    match l.nodes with
    | [] => (none, some l)
    | d :: rest => (some d, some { nodes := rest, size := l.size - 1 })

/-- Scan of ds_list_remove: the first node whose payload the comparator
reports equal to the target (cmp(node data, target) == 0) is unlinked. -/
def list_remove_go (cmp : α → α → Int) (data : α) :
    List α → Option (List α)
  | [] => none
  | x :: rest =>
    if cmp x data = 0 then some rest
    else
      match list_remove_go cmp data rest with
      | none => none
      | some rest2 => some (x :: rest2)

/-- ds_list_remove: NULL handle, payload or comparator give DS_ERR_NULLARG;
a missed scan gives DS_ERR_NOTFOUND with the list untouched; otherwise the
first matching node is unlinked and size decremented. -/
def ds_list_remove (L : Option (ds_list α)) (data : Option α)
    (cmp : Option (α → α → Int)) : ds_error × Option (ds_list α) :=
  match L, data, cmp with
  | some l, some d, some c =>
    match list_remove_go c d l.nodes with
    | none => (DS_ERR_NOTFOUND, some l)
    | some nodes2 => (DS_OK, some { nodes := nodes2, size := l.size - 1 })
  | _, _, _ => (DS_ERR_NULLARG, L)

/-- Scan of ds_list_find: first payload with cmp(node data, target) == 0. -/
def list_find_go (cmp : α → α → Int) (target : α) : List α → Option α
  | [] => none
  | x :: rest => if cmp x target = 0 then some x else list_find_go cmp target rest

/-- ds_list_find: linear scan without mutation, NULL when absent or when
any argument is NULL. -/
def ds_list_find (L : Option (ds_list α)) (target : Option α)
    (cmp : Option (α → α → Int)) : Option α :=
  match L, target, cmp with
  | some l, some tg, some c => list_find_go c tg l.nodes
  | _, _, _ => none

/-- ds_list_size: cached size, 0 for a NULL handle. -/
def ds_list_size : Option (ds_list α) → Nat
  | none => 0
  | some l => l.size

/-- ds_list_free: DS_ERR_NULLARG for a NULL handle with no side effect;
otherwise all nodes are walked head first, the destructor (when supplied)
is invoked on each payload in that order, and everything is released. -/
def ds_list_free (L : Option (ds_list α)) (with_destructor : Bool) :
    ds_error × List α :=
  match L with
  | none => (DS_ERR_NULLARG, [])
  | some l => (DS_OK, if with_destructor then l.nodes else [])

/-! ## Stack (src/stack.c) -/

/-- Container state: struct ds_stack { top; size }.  The chain from the top
pointer is the list, top first. -/
structure ds_stack (α : Type) where
  top : List α
  size : Nat
  deriving DecidableEq, Repr

/-- ds_stack_create: fresh stack, top = NULL, size = 0. -/
def ds_stack_create : ds_stack α := { top := [], size := 0 }

/-- ds_stack_push: NULL handle or payload give DS_ERR_NULLARG, a failed
allocation DS_ERR_OOM with the stack untouched, otherwise the node is
prepended at top and size incremented. -/
def ds_stack_push (S : Option (ds_stack α)) (data : Option α)
    (alloc_ok : Bool) : ds_error × Option (ds_stack α) :=
  match S, data with
  | some s, some d =>
    if alloc_ok then
      (DS_OK, some { top := d :: s.top, size := s.size + 1 })
    else
      (DS_ERR_OOM, some s)
  | _, _ => (DS_ERR_NULLARG, S)

/-- ds_stack_pop: NULL on a NULL or empty stack, otherwise the top node is
detached and released and its payload returned. -/
def ds_stack_pop (S : Option (ds_stack α)) :
    Option α × Option (ds_stack α) :=
  match S with
  | none => (none, none)
  | some s =>
    match s.top with
    | [] => (none, some s)
    | d :: rest => (some d, some { top := rest, size := s.size - 1 })

/-- ds_stack_peek: top payload without mutation, NULL on NULL or empty. -/
def ds_stack_peek (S : Option (ds_stack α)) : Option α :=
  match S with
  | none => none
  | some s => match s.top with | [] => none | d :: _ => some d

/-- ds_stack_is_empty: C int result, 1 when the handle is NULL or the top
pointer is NULL, else 0. -/
def ds_stack_is_empty : Option (ds_stack α) → Nat
  | none => 1
  | some s => match s.top with | [] => 1 | _ => 0

/-- ds_stack_size: cached size, 0 for a NULL handle. -/
def ds_stack_size : Option (ds_stack α) → Nat
  | none => 0
  | some s => s.size

/-- ds_stack_free: same teardown contract as the list, walking from top. -/
def ds_stack_free (S : Option (ds_stack α)) (with_destructor : Bool) :
    ds_error × List α :=
  match S with
  | none => (DS_ERR_NULLARG, [])
  | some s => (DS_OK, if with_destructor then s.top else [])

/-! ## Queue (src/queue.c) -/

/-- Container state: struct ds_queue { front; rear; size }.  The chain from
front is the list, front first; rear designates its last node. -/
structure ds_queue (α : Type) where
  nodes : List α
  size : Nat
  deriving DecidableEq, Repr

/-- ds_queue_create: fresh queue, front = rear = NULL, size = 0. -/
def ds_queue_create : ds_queue α := { nodes := [], size := 0 }

/-- ds_queue_enqueue: NULL handle or payload give DS_ERR_NULLARG, a failed
allocation DS_ERR_OOM with the queue untouched, otherwise the node is
linked after rear (and becomes front as well when the queue was empty). -/
def ds_queue_enqueue (Q : Option (ds_queue α)) (data : Option α)
    (alloc_ok : Bool) : ds_error × Option (ds_queue α) :=
  match Q, data with
  | some q, some d =>
    if alloc_ok then
      (DS_OK, some { nodes := q.nodes ++ [d], size := q.size + 1 })
    else
      (DS_ERR_OOM, some q)
  | _, _ => (DS_ERR_NULLARG, Q)

/-- ds_queue_dequeue: NULL on a NULL or empty queue, otherwise the front
node is detached and released and its payload returned. -/
def ds_queue_dequeue (Q : Option (ds_queue α)) :
    Option α × Option (ds_queue α) :=
  match Q with
  | none => (none, none)
  | some q =>
    match q.nodes with
    | [] => (none, some q)
    | d :: rest => (some d, some { nodes := rest, size := q.size - 1 })

/-- ds_queue_peek: front payload without mutation, NULL on NULL or empty. -/
def ds_queue_peek (Q : Option (ds_queue α)) : Option α :=
  match Q with
  | none => none
  | some q => match q.nodes with | [] => none | d :: _ => some d

/-- ds_queue_is_empty: C int result, 1 when the handle is NULL or the front
pointer is NULL, else 0. -/
def ds_queue_is_empty : Option (ds_queue α) → Nat
  | none => 1
  | some q => match q.nodes with | [] => 1 | _ => 0

/-- ds_queue_size: cached size, 0 for a NULL handle. -/
def ds_queue_size : Option (ds_queue α) → Nat
  | none => 0
  | some q => q.size

/-- ds_queue_free: same teardown contract as the list, walking from front. -/
def ds_queue_free (Q : Option (ds_queue α)) (with_destructor : Bool) :
    ds_error × List α :=
  match Q with
  | none => (DS_ERR_NULLARG, [])
  | some q => (DS_OK, if with_destructor then q.nodes else [])

/-! ## Integer comparator of the test driver (main.c), idealised on Int -/

/-- cmp_int of main.c: three-way comparison of two ints by subtraction. -/
def cmp_int (a b : Int) : Int := a - b

/-- Properties a caller-supplied total three-way comparator is assumed to
satisfy (the specification calls the comparator a fixed total three-way
ordering): the strict order it induces is asymmetric-complete (a below b
exactly when b above a) and transitive.  cmp_int satisfies them. -/
structure CmpLaws (cmp : α → α → Int) : Prop where
  flip_lt : ∀ a b, cmp a b < 0 ↔ 0 < cmp b a
  lt_trans : ∀ a b c, cmp a b < 0 → cmp b c < 0 → cmp a c < 0

/-- Sequence of ds_tree_insert calls with a fixed comparator: each entry of
ops is a payload together with the outcome of that call's allocation. -/
def ds_tree_insert_fold (c : α → α → Int) (ops : List (α × Bool))
    (T : Option (ds_tree α)) : Option (ds_tree α) :=
  ops.foldl (fun acc p => (ds_tree_insert acc (some p.1) (some c) p.2).2) T

/-! ## The end-to-end tree scenario of the specification (claim C1) -/

/-- Tree obtained by inserting 50, 30, 70, 20, 40 into a fresh tree with the
integer comparator (all allocations succeed). -/
def c1_after_inserts : Option (ds_tree Int) :=
  ([50, 30, 70, 20, 40] : List Int).foldl
    (fun T x => (ds_tree_insert T (some x) (some cmp_int) true).2)
    (some ds_tree_create)

/-- State after the subsequent remove(50). -/
def c1_final : Option (ds_tree Int) :=
  (ds_tree_remove c1_after_inserts (some 50) (some cmp_int)).2

/-- Root payload of an optional tree handle. -/
def ds_root_payload : Option (ds_tree α) → Option α
  | none => none
  | some t => root_data t.root

/-- Sequence of successful ds_list_push_back calls for the payloads xs. -/
def ds_list_push_back_fold (xs : List α) (L : Option (ds_list α)) :
    Option (ds_list α) :=
  xs.foldl (fun acc x => (ds_list_push_back acc (some x) true).2) L

/-- Repeated ds_list_pop_front until it returns NULL (bounded by fuel),
collecting the returned payloads in call order. -/
def ds_list_drain (fuel : Nat) (L : Option (ds_list α)) : List α :=
  match fuel with
  | 0 => []
  | Nat.succ fuel2 =>
    match ds_list_pop_front L with
    | (none, _) => []
    | (some d, L2) => d :: ds_list_drain fuel2 L2

/-! # Theorems -/

/-! ## Comparator laws of the integer comparator -/

theorem cmp_int_laws : CmpLaws cmp_int := by
  constructor
  · intro a b
    simp only [cmp_int]
    omega
  · intro a b c h1 h2
    simp only [cmp_int] at h1 h2 ⊢
    omega

/-! ## Characterisations of the tree predicates -/

theorem tree_all_iff (p : α → Bool) :
    ∀ t : ds_tree_node α, tree_all p t = true ↔ ∀ y ∈ inorder t, p y = true := by
  intro t
  induction t with
  | nil => simp [tree_all, inorder]
  | node d l r ihl ihr =>
    simp only [tree_all, inorder, Bool.and_eq_true, ihl, ihr, List.mem_append,
      List.mem_cons]
    constructor
    · rintro ⟨⟨hd, hl⟩, hr⟩ y hy
      rcases hy with hy | rfl | hy
      · exact hl y hy
      · exact hd
      · exact hr y hy
    · intro h
      exact ⟨⟨h d (Or.inr (Or.inl rfl)), fun y hy => h y (Or.inl hy)⟩,
        fun y hy => h y (Or.inr (Or.inr hy))⟩

theorem is_bst_node (c : α → α → Int) (d : α) (l r : ds_tree_node α) :
    is_bst c (ds_tree_node.node d l r) = true ↔
      (∀ y ∈ inorder l, c y d < 0) ∧ (∀ y ∈ inorder r, 0 < c y d) ∧
      is_bst c l = true ∧ is_bst c r = true := by
  simp [is_bst, Bool.and_eq_true, tree_all_iff, and_assoc]

/-- In a BST, the in-order traversal is strictly increasing under the
comparator, pairwise over all positions. -/
theorem is_bst_pairwise (c : α → α → Int) (laws : CmpLaws c) :
    ∀ t : ds_tree_node α, is_bst c t = true →
      (inorder t).Pairwise (fun a b => c a b < 0) := by
  intro t
  induction t with
  | nil =>
    intro _
    simp [inorder]
  | node d l r ihl ihr =>
    intro h
    rw [is_bst_node] at h
    obtain ⟨hall_l, hall_r, hbl, hbr⟩ := h
    rw [inorder, List.pairwise_append]
    refine ⟨ihl hbl, ?_, ?_⟩
    · rw [List.pairwise_cons]
      exact ⟨fun b hb => (laws.flip_lt d b).2 (hall_r b hb), ihr hbr⟩
    · intro a ha b hb
      rcases List.mem_cons.1 hb with rfl | hb
      · exact hall_l a ha
      · exact laws.lt_trans a d b (hall_l a ha) ((laws.flip_lt d b).2 (hall_r b hb))

/-! ## Insertion lemmas -/

theorem insert_go_lt (c : α → α → Int) (x d : α) (l r : ds_tree_node α)
    (h : c x d < 0) :
    tree_insert_go c x (ds_tree_node.node d l r)
      = (ds_tree_node.node d (tree_insert_go c x l).1 r,
         (tree_insert_go c x l).2) := by
  simp [tree_insert_go, h]

theorem insert_go_gt (c : α → α → Int) (x d : α) (l r : ds_tree_node α)
    (h1 : ¬ c x d < 0) (h2 : 0 < c x d) :
    tree_insert_go c x (ds_tree_node.node d l r)
      = (ds_tree_node.node d l (tree_insert_go c x r).1,
         (tree_insert_go c x r).2) := by
  simp [tree_insert_go, h1, h2]

theorem insert_go_stop (c : α → α → Int) (x d : α) (l r : ds_tree_node α)
    (h1 : ¬ c x d < 0) (h2 : ¬ 0 < c x d) :
    tree_insert_go c x (ds_tree_node.node d l r)
      = (ds_tree_node.node d l r, false) := by
  simp [tree_insert_go, h1, h2]

theorem mem_inorder_insert_go (c : α → α → Int) (x : α) :
    ∀ t : ds_tree_node α, ∀ y, y ∈ inorder (tree_insert_go c x t).1 →
      y = x ∨ y ∈ inorder t := by
  intro t
  induction t with
  | nil =>
    intro y hy
    simp [tree_insert_go, inorder] at hy
    exact Or.inl hy
  | node d l r ihl ihr =>
    intro y hy
    rcases lt_trichotomy (c x d) 0 with h1 | h1 | h1
    · rw [insert_go_lt c x d l r h1] at hy
      simp only [inorder, List.mem_append, List.mem_cons] at hy ⊢
      rcases hy with hy | rfl | hy
      · rcases ihl y hy with rfl | h
        · exact Or.inl rfl
        · exact Or.inr (Or.inl h)
      · exact Or.inr (Or.inr (Or.inl rfl))
      · exact Or.inr (Or.inr (Or.inr hy))
    · rw [insert_go_stop c x d l r (by omega) (by omega)] at hy
      exact Or.inr hy
    · rw [insert_go_gt c x d l r (by omega) h1] at hy
      simp only [inorder, List.mem_append, List.mem_cons] at hy ⊢
      rcases hy with hy | rfl | hy
      · exact Or.inr (Or.inl hy)
      · exact Or.inr (Or.inr (Or.inl rfl))
      · rcases ihr y hy with rfl | h
        · exact Or.inl rfl
        · exact Or.inr (Or.inr (Or.inr h))

theorem is_bst_insert_go (c : α → α → Int) (x : α) :
    ∀ t : ds_tree_node α, is_bst c t = true →
      is_bst c (tree_insert_go c x t).1 = true := by
  intro t
  induction t with
  | nil =>
    intro _
    simp [tree_insert_go, is_bst, tree_all]
  | node d l r ihl ihr =>
    intro h
    rw [is_bst_node] at h
    obtain ⟨hall_l, hall_r, hbl, hbr⟩ := h
    rcases lt_trichotomy (c x d) 0 with h1 | h1 | h1
    · rw [insert_go_lt c x d l r h1]
      show is_bst c (ds_tree_node.node d (tree_insert_go c x l).1 r) = true
      rw [is_bst_node]
      refine ⟨?_, hall_r, ihl hbl, hbr⟩
      intro y hy
      rcases mem_inorder_insert_go c x l y hy with rfl | h
      · exact h1
      · exact hall_l y h
    · rw [insert_go_stop c x d l r (by omega) (by omega)]
      show is_bst c (ds_tree_node.node d l r) = true
      rw [is_bst_node]
      exact ⟨hall_l, hall_r, hbl, hbr⟩
    · rw [insert_go_gt c x d l r (by omega) h1]
      show is_bst c (ds_tree_node.node d l (tree_insert_go c x r).1) = true
      rw [is_bst_node]
      refine ⟨hall_l, ?_, hbl, ihr hbr⟩
      intro y hy
      rcases mem_inorder_insert_go c x r y hy with rfl | h
      · exact h1
      · exact hall_r y h

/-- Core of the duplicate no-op: when the target compares equal to some
payload of a BST, the insertion descent reaches that payload and discards
the new node, leaving the subtree unchanged with no node linked. -/
theorem insert_go_duplicate (c : α → α → Int) (laws : CmpLaws c) (x : α) :
    ∀ t : ds_tree_node α, is_bst c t = true →
      ∀ y ∈ inorder t, c x y = 0 → tree_insert_go c x t = (t, false) := by
  intro t
  induction t with
  | nil =>
    intro _ y hy
    simp [inorder] at hy
  | node d l r ihl ihr =>
    intro h y hy hxy
    rw [is_bst_node] at h
    obtain ⟨hall_l, hall_r, hbl, hbr⟩ := h
    simp only [inorder, List.mem_append, List.mem_cons] at hy
    rcases lt_trichotomy (c x d) 0 with h1 | h1 | h1
    · rcases hy with hy | rfl | hy
      · rw [insert_go_lt c x d l r h1, ihl hbl y hy hxy]
      · omega
      · exfalso
        have hdy : c d y < 0 := (laws.flip_lt d y).2 (hall_r y hy)
        have := laws.lt_trans x d y h1 hdy
        omega
    · rw [insert_go_stop c x d l r (by omega) (by omega)]
    · rcases hy with hy | rfl | hy
      · exfalso
        have hdx : c d x < 0 := (laws.flip_lt d x).2 h1
        have hyx := laws.lt_trans y d x (hall_l y hy) hdx
        have := (laws.flip_lt y x).1 hyx
        omega
      · omega
      · rw [insert_go_gt c x d l r (by omega) h1, ihr hbr y hy hxy]

/-! ## Insertion-sequence lemmas -/

theorem insert_fold_cons (c : α → α → Int) (p : α × Bool)
    (ops : List (α × Bool)) (T : Option (ds_tree α)) :
    ds_tree_insert_fold c (p :: ops) T
      = ds_tree_insert_fold c ops ((ds_tree_insert T (some p.1) (some c) p.2).2) :=
  rfl

theorem insert_fold_bst (c : α → α → Int) :
    ∀ (ops : List (α × Bool)) (t : ds_tree α), is_bst c t.root = true →
      ∀ t2, ds_tree_insert_fold c ops (some t) = some t2 →
        is_bst c t2.root = true := by
  intro ops
  induction ops with
  | nil =>
    intro t h t2 h2
    simp only [ds_tree_insert_fold, List.foldl_nil] at h2
    cases h2
    exact h
  | cons p ops ih =>
    intro t h t2 h2
    rw [insert_fold_cons] at h2
    cases hb : p.2 with
    | true =>
      rw [hb] at h2
      exact ih { root := (tree_insert_go c p.1 t.root).1,
                 size := if (tree_insert_go c p.1 t.root).2 then t.size + 1 else t.size }
        (is_bst_insert_go c p.1 t.root h) t2 h2
    | false =>
      rw [hb] at h2
      exact ih t h t2 h2

/-! ## Removal lemmas -/

theorem remove_go_lt (c : α → α → Int) (x d : α) (l r : ds_tree_node α)
    (h : c x d < 0) :
    tree_remove_go c x (ds_tree_node.node d l r)
      = (tree_remove_go c x l).map (fun l2 => ds_tree_node.node d l2 r) := by
  rcases hgo : tree_remove_go c x l with _ | l2 <;> simp [tree_remove_go, h, hgo]

theorem remove_go_gt (c : α → α → Int) (x d : α) (l r : ds_tree_node α)
    (h1 : ¬ c x d < 0) (h2 : 0 < c x d) :
    tree_remove_go c x (ds_tree_node.node d l r)
      = (tree_remove_go c x r).map (fun r2 => ds_tree_node.node d l r2) := by
  rcases hgo : tree_remove_go c x r with _ | r2 <;> simp [tree_remove_go, h1, h2, hgo]

theorem remove_go_found_nil_nil (c : α → α → Int) (x d : α)
    (h1 : ¬ c x d < 0) (h2 : ¬ 0 < c x d) :
    tree_remove_go c x (ds_tree_node.node d .nil .nil) = some .nil := by
  simp [tree_remove_go, h1, h2]

theorem remove_go_found_nil_r (c : α → α → Int) (x d rd : α)
    (rl rr : ds_tree_node α) (h1 : ¬ c x d < 0) (h2 : ¬ 0 < c x d) :
    tree_remove_go c x (ds_tree_node.node d .nil (ds_tree_node.node rd rl rr))
      = some (ds_tree_node.node rd rl rr) := by
  simp [tree_remove_go, h1, h2]

theorem remove_go_found_l_nil (c : α → α → Int) (x d ld : α)
    (ll lr : ds_tree_node α) (h1 : ¬ c x d < 0) (h2 : ¬ 0 < c x d) :
    tree_remove_go c x (ds_tree_node.node d (ds_tree_node.node ld ll lr) .nil)
      = some (ds_tree_node.node ld ll lr) := by
  simp [tree_remove_go, h1, h2]

theorem remove_go_found_two (c : α → α → Int) (x d ld rd : α)
    (ll lr rl rr : ds_tree_node α) (h1 : ¬ c x d < 0) (h2 : ¬ 0 < c x d) :
    tree_remove_go c x (ds_tree_node.node d (ds_tree_node.node ld ll lr)
        (ds_tree_node.node rd rl rr))
      = some (ds_tree_node.node (tree_min_data rd rl) (ds_tree_node.node ld ll lr)
          (tree_remove_min (ds_tree_node.node rd rl rr))) := by
  simp [tree_remove_go, h1, h2]

/-- The leftmost payload of a non-empty subtree heads its in-order list, and
unlinking the leftmost node (the successor unlink of ds_tree_remove) drops
exactly that head. -/
theorem inorder_min_cons :
    ∀ (l : ds_tree_node α) (d : α) (r : ds_tree_node α),
      inorder (ds_tree_node.node d l r)
        = tree_min_data d l :: inorder (tree_remove_min (ds_tree_node.node d l r)) := by
  intro l
  induction l with
  | nil =>
    intro d r
    rfl
  | node d2 l2 r2 ihl2 ihr2 =>
    intro d r
    have h := ihl2 d2 r2
    rw [show inorder (ds_tree_node.node d (ds_tree_node.node d2 l2 r2) r)
        = inorder (ds_tree_node.node d2 l2 r2) ++ d :: inorder r from rfl, h]
    simp [inorder, tree_min_data, tree_remove_min]

theorem is_bst_remove_min (c : α → α → Int) :
    ∀ t : ds_tree_node α, is_bst c t = true →
      is_bst c (tree_remove_min t) = true := by
  intro t
  induction t with
  | nil =>
    intro h
    exact h
  | node d l r ihl ihr =>
    intro h
    rw [is_bst_node] at h
    obtain ⟨hall_l, hall_r, hbl, hbr⟩ := h
    cases l with
    | nil => exact hbr
    | node d2 l2 r2 =>
      show is_bst c (ds_tree_node.node d
        (tree_remove_min (ds_tree_node.node d2 l2 r2)) r) = true
      rw [is_bst_node]
      refine ⟨?_, hall_r, ihl hbl, hbr⟩
      intro y hy
      apply hall_l
      rw [inorder_min_cons l2 d2 r2]
      exact List.mem_cons_of_mem _ hy

theorem mem_inorder_remove_go (c : α → α → Int) (x : α) :
    ∀ t t2 : ds_tree_node α, tree_remove_go c x t = some t2 →
      ∀ y, y ∈ inorder t2 → y ∈ inorder t := by
  intro t
  induction t with
  | nil =>
    intro t2 h
    simp [tree_remove_go] at h
  | node d l r ihl ihr =>
    intro t2 h y hy
    rcases lt_trichotomy (c x d) 0 with h1 | h1 | h1
    · rw [remove_go_lt c x d l r h1] at h
      rcases hgo : tree_remove_go c x l with _ | l2
      · rw [hgo] at h
        simp at h
      · rw [hgo] at h
        simp only [Option.map_some'] at h
        cases h
        simp only [inorder, List.mem_append, List.mem_cons] at hy ⊢
        rcases hy with hy | rfl | hy
        · exact Or.inl (ihl l2 hgo y hy)
        · exact Or.inr (Or.inl rfl)
        · exact Or.inr (Or.inr hy)
    · have h1a : ¬ c x d < 0 := by omega
      have h1b : ¬ 0 < c x d := by omega
      cases l with
      | nil =>
        cases r with
        | nil =>
          rw [remove_go_found_nil_nil c x d h1a h1b] at h
          cases h
          simp [inorder] at hy
        | node rd rl rr =>
          rw [remove_go_found_nil_r c x d rd rl rr h1a h1b] at h
          cases h
          simp only [inorder, List.mem_append, List.mem_cons] at hy ⊢
          tauto
      | node ld ll lr =>
        cases r with
        | nil =>
          rw [remove_go_found_l_nil c x d ld ll lr h1a h1b] at h
          cases h
          simp only [inorder, List.mem_append, List.mem_cons] at hy ⊢
          tauto
        | node rd rl rr =>
          rw [remove_go_found_two c x d ld rd ll lr rl rr h1a h1b] at h
          cases h
          simp only [inorder, List.mem_append, List.mem_cons] at hy ⊢
          rcases hy with hy | rfl | hy
          · tauto
          · have : tree_min_data rd rl ∈ inorder (ds_tree_node.node rd rl rr) := by
              rw [inorder_min_cons rl rd rr]
              exact List.mem_cons_self _ _
            simp only [inorder, List.mem_append, List.mem_cons] at this
            tauto
          · have : y ∈ inorder (ds_tree_node.node rd rl rr) := by
              rw [inorder_min_cons rl rd rr]
              exact List.mem_cons_of_mem _ hy
            simp only [inorder, List.mem_append, List.mem_cons] at this
            tauto
    · rw [remove_go_gt c x d l r (by omega) h1] at h
      rcases hgo : tree_remove_go c x r with _ | r2
      · rw [hgo] at h
        simp at h
      · rw [hgo] at h
        simp only [Option.map_some'] at h
        cases h
        simp only [inorder, List.mem_append, List.mem_cons] at hy ⊢
        rcases hy with hy | rfl | hy
        · exact Or.inl hy
        · exact Or.inr (Or.inl rfl)
        · exact Or.inr (Or.inr (ihr r2 hgo y hy))

theorem is_bst_remove_go (c : α → α → Int) (laws : CmpLaws c) (x : α) :
    ∀ t t2 : ds_tree_node α, is_bst c t = true →
      tree_remove_go c x t = some t2 → is_bst c t2 = true := by
  intro t
  induction t with
  | nil =>
    intro t2 _ h
    simp [tree_remove_go] at h
  | node d l r ihl ihr =>
    intro t2 hbst h
    rw [is_bst_node] at hbst
    obtain ⟨hall_l, hall_r, hbl, hbr⟩ := hbst
    rcases lt_trichotomy (c x d) 0 with h1 | h1 | h1
    · rw [remove_go_lt c x d l r h1] at h
      rcases hgo : tree_remove_go c x l with _ | l2
      · rw [hgo] at h
        simp at h
      · rw [hgo] at h
        simp only [Option.map_some'] at h
        cases h
        rw [is_bst_node]
        refine ⟨?_, hall_r, ihl l2 hbl hgo, hbr⟩
        intro y hy
        exact hall_l y (mem_inorder_remove_go c x l l2 hgo y hy)
    · have h1a : ¬ c x d < 0 := by omega
      have h1b : ¬ 0 < c x d := by omega
      cases l with
      | nil =>
        cases r with
        | nil =>
          rw [remove_go_found_nil_nil c x d h1a h1b] at h
          cases h
          rfl
        | node rd rl rr =>
          rw [remove_go_found_nil_r c x d rd rl rr h1a h1b] at h
          cases h
          exact hbr
      | node ld ll lr =>
        cases r with
        | nil =>
          rw [remove_go_found_l_nil c x d ld ll lr h1a h1b] at h
          cases h
          exact hbl
        | node rd rl rr =>
          rw [remove_go_found_two c x d ld rd ll lr rl rr h1a h1b] at h
          cases h
          have hmem_m : tree_min_data rd rl ∈ inorder (ds_tree_node.node rd rl rr) := by
            rw [inorder_min_cons rl rd rr]
            exact List.mem_cons_self _ _
          have hmd : 0 < c (tree_min_data rd rl) d := hall_r _ hmem_m
          have hdm : c d (tree_min_data rd rl) < 0 := (laws.flip_lt _ _).2 hmd
          rw [is_bst_node]
          refine ⟨?_, ?_, hbl, is_bst_remove_min c _ hbr⟩
          · intro y hy
            exact laws.lt_trans y d _ (hall_l y hy) hdm
          · intro y hy
            have hp : (inorder (ds_tree_node.node rd rl rr)).Pairwise
                (fun a b => c a b < 0) := is_bst_pairwise c laws _ hbr
            rw [inorder_min_cons rl rd rr] at hp
            have := (List.pairwise_cons.1 hp).1 y hy
            exact (laws.flip_lt _ _).1 this
    · rw [remove_go_gt c x d l r (by omega) h1] at h
      rcases hgo : tree_remove_go c x r with _ | r2
      · rw [hgo] at h
        simp at h
      · rw [hgo] at h
        simp only [Option.map_some'] at h
        cases h
        rw [is_bst_node]
        refine ⟨hall_l, ?_, hbl, ihr r2 hbr hgo⟩
        intro y hy
        exact hall_r y (mem_inorder_remove_go c x r r2 hgo y hy)

/-- When the descent finds a node, the removal succeeds and the in-order
traversal loses exactly the found node's payload at its position; the
found node's two subtrees keep all their payloads in order (in the
two-children case because the successor's payload moves into the found
node and the successor's right subtree is spliced into its parent slot). -/
theorem remove_go_found (c : α → α → Int) (x : α) :
    ∀ t : ds_tree_node α, ∀ (d : α) (fl fr : ds_tree_node α),
      tree_find_subtree c x t = some (ds_tree_node.node d fl fr) →
      ∃ t2 pre post,
        tree_remove_go c x t = some t2 ∧
        inorder t = pre ++ (inorder fl ++ d :: inorder fr) ++ post ∧
        inorder t2 = pre ++ (inorder fl ++ inorder fr) ++ post := by
  intro t
  induction t with
  | nil =>
    intro d fl fr h
    simp [tree_find_subtree] at h
  | node d0 l0 r0 ihl ihr =>
    intro d fl fr h
    rcases lt_trichotomy (c x d0) 0 with h1 | h1 | h1
    · have hf : tree_find_subtree c x l0 = some (ds_tree_node.node d fl fr) := by
        simpa [tree_find_subtree, h1] using h
      obtain ⟨t2, pre, post, hrem, hin, hin2⟩ := ihl d fl fr hf
      refine ⟨ds_tree_node.node d0 t2 r0, pre, post ++ d0 :: inorder r0, ?_, ?_, ?_⟩
      · rw [remove_go_lt c x d0 l0 r0 h1, hrem]
        rfl
      · show inorder l0 ++ d0 :: inorder r0 = _
        rw [hin]
        simp [List.append_assoc]
      · show inorder t2 ++ d0 :: inorder r0 = _
        rw [hin2]
        simp [List.append_assoc]
    · have h1a : ¬ c x d0 < 0 := by omega
      have h1b : ¬ 0 < c x d0 := by omega
      have heq : ds_tree_node.node d0 l0 r0 = ds_tree_node.node d fl fr := by
        simpa [tree_find_subtree, h1a, h1b] using h
      cases heq
      clear ihl ihr h
      cases l0 with
      | nil =>
        cases r0 with
        | nil =>
          exact ⟨.nil, [], [], remove_go_found_nil_nil c x d0 h1a h1b,
            by simp [inorder], by simp [inorder]⟩
        | node rd rl rr =>
          exact ⟨ds_tree_node.node rd rl rr, [], [],
            remove_go_found_nil_r c x d0 rd rl rr h1a h1b,
            by simp [inorder], by simp [inorder]⟩
      | node ld ll lr =>
        cases r0 with
        | nil =>
          exact ⟨ds_tree_node.node ld ll lr, [], [],
            remove_go_found_l_nil c x d0 ld ll lr h1a h1b,
            by simp [inorder], by simp [inorder]⟩
        | node rd rl rr =>
          refine ⟨ds_tree_node.node (tree_min_data rd rl) (ds_tree_node.node ld ll lr)
              (tree_remove_min (ds_tree_node.node rd rl rr)), [], [],
            remove_go_found_two c x d0 ld rd ll lr rl rr h1a h1b, by simp [inorder], ?_⟩
          show inorder (ds_tree_node.node ld ll lr)
              ++ tree_min_data rd rl :: inorder (tree_remove_min (ds_tree_node.node rd rl rr)) = _
          rw [show ([] : List α) ++ (inorder (ds_tree_node.node ld ll lr)
              ++ inorder (ds_tree_node.node rd rl rr)) ++ []
            = inorder (ds_tree_node.node ld ll lr) ++ inorder (ds_tree_node.node rd rl rr) by simp]
          rw [inorder_min_cons rl rd rr]
    · have hlt : ¬ c x d0 < 0 := by omega
      have hf : tree_find_subtree c x r0 = some (ds_tree_node.node d fl fr) := by
        simpa [tree_find_subtree, hlt, h1] using h
      obtain ⟨t2, pre, post, hrem, hin, hin2⟩ := ihr d fl fr hf
      refine ⟨ds_tree_node.node d0 l0 t2, inorder l0 ++ d0 :: pre, post, ?_, ?_, ?_⟩
      · rw [remove_go_gt c x d0 l0 r0 (by omega) h1, hrem]
        rfl
      · show inorder l0 ++ d0 :: inorder r0 = _
        rw [hin]
        simp [List.append_assoc]
      · show inorder l0 ++ d0 :: inorder t2 = _
        rw [hin2]
        simp [List.append_assoc]

/-- When no payload of the tree compares equal to the target, the removal
descent bottoms out and reports nothing. -/
theorem remove_go_none (c : α → α → Int) (x : α) :
    ∀ t : ds_tree_node α, (∀ y ∈ inorder t, c x y ≠ 0) →
      tree_remove_go c x t = none := by
  intro t
  induction t with
  | nil =>
    intro _
    rfl
  | node d l r ihl ihr =>
    intro h
    have hd : c x d ≠ 0 := h d (by simp [inorder])
    rcases lt_trichotomy (c x d) 0 with h1 | h1 | h1
    · rw [remove_go_lt c x d l r h1,
        ihl (fun y hy => h y (by simp only [inorder, List.mem_append, List.mem_cons]; tauto))]
      rfl
    · exact absurd h1 hd
    · rw [remove_go_gt c x d l r (by omega) h1,
        ihr (fun y hy => h y (by simp only [inorder, List.mem_append, List.mem_cons]; tauto))]
      rfl

/-- In-order traversal of a subtree starts with the in-order list of its
leftmost node. -/
theorem leftmost_subtree_inorder :
    ∀ (t : ds_tree_node α) (s : α) (ls rs : ds_tree_node α),
      leftmost_subtree t = ds_tree_node.node s ls rs →
      ∃ rest, inorder t = inorder (ds_tree_node.node s ls rs) ++ rest := by
  intro t
  induction t with
  | nil =>
    intro s ls rs h
    simp [leftmost_subtree] at h
  | node d l r ihl ihr =>
    intro s ls rs h
    cases l with
    | nil =>
      have heq : ds_tree_node.node d ds_tree_node.nil r = ds_tree_node.node s ls rs := h
      cases heq
      exact ⟨[], by simp⟩
    | node d2 l2 r2 =>
      obtain ⟨rest, hrest⟩ := ihl s ls rs h
      refine ⟨rest ++ d :: inorder r, ?_⟩
      show inorder (ds_tree_node.node d2 l2 r2) ++ d :: inorder r = _
      rw [hrest]
      simp [List.append_assoc]

theorem find_subtree_count_pos (c : α → α → Int) (x : α)
    (t s : ds_tree_node α) (h : tree_find_subtree c x t = some s) :
    0 < count_nodes t := by
  cases t with
  | nil => simp [tree_find_subtree] at h
  | node d l r =>
    simp only [count_nodes]
    omega

theorem found_two_spec (c : α → α → Int) (x : α) (t : ds_tree_node α)
    (h : tree_found_two c x t = true) :
    ∃ d ld ll lr rd rl rr, tree_find_subtree c x t
      = some (ds_tree_node.node d (ds_tree_node.node ld ll lr)
          (ds_tree_node.node rd rl rr)) := by
  unfold tree_found_two at h
  rcases hf : tree_find_subtree c x t with _ | s
  · rw [hf] at h
    simp at h
  · rw [hf] at h
    cases s with
    | nil => simp at h
    | node d l r =>
      cases l with
      | nil => simp at h
      | node ld ll lr =>
        cases r with
        | nil => simp at h
        | node rd rl rr => exact ⟨d, ld, ll, lr, rd, rl, rr, rfl⟩

/-- C1, counterexample.  In the end-to-end scenario the two-children removal
of 50 promotes the in-order successor, which is 70 (the leftmost node of the
right subtree of 50 is 70 itself, since 70 has no left child); the claimed
root payload 40 is wrong. -/
theorem c1_root_is_70_not_40 :
    ds_root_payload c1_final = some 70 ∧ (70 : Int) ≠ 40 := by
  constructor
  · rfl
  · decide

/-- C1, amended.  Starting from an empty tree, after inserting 50, 30, 70,
20, 40 with the integer comparator and removing 50, the removal reports
DS_OK, the root payload is 70 (the in-order successor of 50), the size is 4
and the in-order traversal yields [20, 30, 40, 70]. -/
theorem c1_end_to_end_scenario :
    (ds_tree_remove c1_after_inserts (some 50) (some cmp_int)).1 = DS_OK ∧
    ds_root_payload c1_final = some 70 ∧
    ds_tree_size c1_final = 4 ∧
    (match c1_final with
     | some t => inorder t.root
     | none => []) = [20, 30, 40, 70] := by
  refine ⟨rfl, rfl, rfl, rfl⟩

/-! ## Claim C4: error code for an absent comparator -/

/-- C4, counterexample.  ds_tree_insert with a NULL comparator on a live
tree and a valid payload returns DS_ERR_NULLARG, not DS_ERR_INVALID: the
code folds the absent-comparator check into the same null-argument test as
the handle and the payload, and never issues DS_ERR_INVALID. -/
theorem c4_null_comparator_counterexample :
    (ds_tree_insert (some (ds_tree_create : ds_tree Int)) (some 1) none true).1
      = DS_ERR_NULLARG ∧
    DS_ERR_NULLARG ≠ DS_ERR_INVALID := by
  exact ⟨rfl, by decide⟩

/-- C4, amended.  For every comparator-requiring operation (list remove and
find, tree insert, find and remove), an absent comparator is reported the
same way as an absent handle or payload: the status-returning operations
return DS_ERR_NULLARG (the null-argument condition), the find operations
return the NULL sentinel; an absent handle or payload likewise yields
DS_ERR_NULLARG.  The invalid-argument code is never used here. -/
theorem c4_null_comparator_is_nullarg (α : Type) (L : Option (ds_list α))
    (T : Option (ds_tree α)) (d : Option α) (c : Option (α → α → Int))
    (b : Bool) :
    ds_list_remove L d none = (DS_ERR_NULLARG, L) ∧
    ds_list_find L d none = none ∧
    ds_tree_insert T d none b = (DS_ERR_NULLARG, T) ∧
    ds_tree_find T d none = none ∧
    ds_tree_remove T d none = (DS_ERR_NULLARG, T) ∧
    ds_list_remove none d c = (DS_ERR_NULLARG, none) ∧
    ds_list_remove L none c = (DS_ERR_NULLARG, L) ∧
    ds_tree_insert none d c b = (DS_ERR_NULLARG, none) ∧
    ds_tree_insert T none c b = (DS_ERR_NULLARG, T) ∧
    ds_tree_remove none d c = (DS_ERR_NULLARG, none) ∧
    ds_tree_remove T none c = (DS_ERR_NULLARG, T) := by
  cases L <;> cases T <;> cases d <;> cases c <;>
    exact ⟨rfl, rfl, rfl, rfl, rfl, rfl, rfl, rfl, rfl, rfl, rfl⟩

/-! ## Claim C5: allocation failure leaves the container untouched -/

/-- C5.  On every live container, each allocating mutation (list push_front
and push_back, stack push, queue enqueue, tree insert) reports DS_ERR_OOM
when its single node allocation fails and returns the container in exactly
its prior state; and more generally each of these mutations, together with
list remove and tree remove, either reports DS_OK or leaves the container
state unchanged. -/
theorem c5_alloc_failure_atomic (α : Type) (l : ds_list α) (s : ds_stack α)
    (q : ds_queue α) (t : ds_tree α) (d : α) (c : α → α → Int) :
    ds_list_push_front (some l) (some d) false = (DS_ERR_OOM, some l) ∧
    ds_list_push_back (some l) (some d) false = (DS_ERR_OOM, some l) ∧
    ds_stack_push (some s) (some d) false = (DS_ERR_OOM, some s) ∧
    ds_queue_enqueue (some q) (some d) false = (DS_ERR_OOM, some q) ∧
    ds_tree_insert (some t) (some d) (some c) false = (DS_ERR_OOM, some t) ∧
    (∀ b, (ds_list_push_front (some l) (some d) b).1 ≠ DS_OK →
      (ds_list_push_front (some l) (some d) b).2 = some l) ∧
    (∀ b, (ds_list_push_back (some l) (some d) b).1 ≠ DS_OK →
      (ds_list_push_back (some l) (some d) b).2 = some l) ∧
    (∀ b, (ds_stack_push (some s) (some d) b).1 ≠ DS_OK →
      (ds_stack_push (some s) (some d) b).2 = some s) ∧
    (∀ b, (ds_queue_enqueue (some q) (some d) b).1 ≠ DS_OK →
      (ds_queue_enqueue (some q) (some d) b).2 = some q) ∧
    (∀ b, (ds_tree_insert (some t) (some d) (some c) b).1 ≠ DS_OK →
      (ds_tree_insert (some t) (some d) (some c) b).2 = some t) ∧
    ((ds_list_remove (some l) (some d) (some c)).1 ≠ DS_OK →
      (ds_list_remove (some l) (some d) (some c)).2 = some l) ∧
    ((ds_tree_remove (some t) (some d) (some c)).1 ≠ DS_OK →
      (ds_tree_remove (some t) (some d) (some c)).2 = some t) := by
  refine ⟨rfl, rfl, rfl, rfl, rfl, ?_, ?_, ?_, ?_, ?_, ?_, ?_⟩
  · intro b h
    cases b with
    | false => rfl
    | true => exact absurd rfl h
  · intro b h
    cases b with
    | false => rfl
    | true => exact absurd rfl h
  · intro b h
    cases b with
    | false => rfl
    | true => exact absurd rfl h
  · intro b h
    cases b with
    | false => rfl
    | true => exact absurd rfl h
  · intro b h
    cases b with
    | false => rfl
    | true => exact absurd rfl h
  · intro h
    simp only [ds_list_remove] at h ⊢
    cases hgo : list_remove_go c d l.nodes with
    | none => simp [hgo]
    | some ns => simp [hgo] at h
  · intro h
    simp only [ds_tree_remove] at h ⊢
    cases hgo : tree_remove_go c d t.root with
    | none => simp [hgo]
    | some r2 => simp [hgo] at h

/-- C5, witness: the general atomicity part applied to a concrete failing
removal (target absent from an empty tree). -/
theorem c5_alloc_failure_atomic_witness :
    (ds_tree_remove (some (ds_tree_create : ds_tree Int)) (some 5)
      (some cmp_int)).2 = some ds_tree_create := by
  have h := c5_alloc_failure_atomic Int ds_list_create ds_stack_create
    ds_queue_create ds_tree_create 5 cmp_int
  exact h.2.2.2.2.2.2.2.2.2.2.2 (by decide)

/-! ## Claim C7: null-handle boundary of every operation -/

/-- C7.  Every operation of every container invoked on a NULL handle
returns its documented sentinel and faults nowhere: pop, dequeue, peek and
find return NULL, size returns 0, is_empty returns 1 (true); the mutating
operations and free return DS_ERR_NULLARG, and free performs no destructor
call and releases nothing (empty side-effect list). -/
theorem c7_null_handle_boundary (α : Type) (d : Option α)
    (c : Option (α → α → Int)) (b fd : Bool) :
    ds_list_push_front (none : Option (ds_list α)) d b = (DS_ERR_NULLARG, none) ∧
    ds_list_push_back (none : Option (ds_list α)) d b = (DS_ERR_NULLARG, none) ∧
    ds_list_pop_front (none : Option (ds_list α)) = (none, none) ∧
    ds_list_remove (none : Option (ds_list α)) d c = (DS_ERR_NULLARG, none) ∧
    ds_list_find (none : Option (ds_list α)) d c = none ∧
    ds_list_size (none : Option (ds_list α)) = 0 ∧
    ds_list_free (none : Option (ds_list α)) fd = (DS_ERR_NULLARG, []) ∧
    ds_stack_push (none : Option (ds_stack α)) d b = (DS_ERR_NULLARG, none) ∧
    ds_stack_pop (none : Option (ds_stack α)) = (none, none) ∧
    ds_stack_peek (none : Option (ds_stack α)) = none ∧
    ds_stack_is_empty (none : Option (ds_stack α)) = 1 ∧
    ds_stack_size (none : Option (ds_stack α)) = 0 ∧
    ds_stack_free (none : Option (ds_stack α)) fd = (DS_ERR_NULLARG, []) ∧
    ds_queue_enqueue (none : Option (ds_queue α)) d b = (DS_ERR_NULLARG, none) ∧
    ds_queue_dequeue (none : Option (ds_queue α)) = (none, none) ∧
    ds_queue_peek (none : Option (ds_queue α)) = none ∧
    ds_queue_is_empty (none : Option (ds_queue α)) = 1 ∧
    ds_queue_size (none : Option (ds_queue α)) = 0 ∧
    ds_queue_free (none : Option (ds_queue α)) fd = (DS_ERR_NULLARG, []) ∧
    ds_tree_insert (none : Option (ds_tree α)) d c b = (DS_ERR_NULLARG, none) ∧
    ds_tree_find (none : Option (ds_tree α)) d c = none ∧
    ds_tree_remove (none : Option (ds_tree α)) d c = (DS_ERR_NULLARG, none) ∧
    ds_tree_size (none : Option (ds_tree α)) = 0 ∧
    ds_tree_is_empty (none : Option (ds_tree α)) = 1 ∧
    ds_tree_free (none : Option (ds_tree α)) fd = (DS_ERR_NULLARG, []) := by
  cases d <;> cases c <;>
    exact ⟨rfl, rfl, rfl, rfl, rfl, rfl, rfl, rfl, rfl, rfl, rfl, rfl, rfl,
      rfl, rfl, rfl, rfl, rfl, rfl, rfl, rfl, rfl, rfl, rfl, rfl⟩

/-! ## Claim C8: push_back then repeated pop_front is FIFO -/

theorem push_back_fold_nodes (xs : List α) :
    ∀ l : ds_list α, ds_list_push_back_fold xs (some l)
      = some { nodes := l.nodes ++ xs, size := l.size + xs.length } := by
  induction xs with
  | nil =>
    intro l
    simp [ds_list_push_back_fold]
  | cons x xs ih =>
    intro l
    have step : ds_list_push_back_fold (x :: xs) (some l)
        = ds_list_push_back_fold xs
            (some { nodes := l.nodes ++ [x], size := l.size + 1 }) := rfl
    rw [step, ih]
    simp [List.append_assoc]
    omega

theorem drain_eq_nodes (ns : List α) :
    ∀ (sz fuel : Nat), ns.length < fuel →
      ds_list_drain fuel (some { nodes := ns, size := sz }) = ns := by
  induction ns with
  | nil =>
    intro sz fuel h
    cases fuel with
    | zero => omega
    | succ fuel2 => rfl
  | cons d rest ih =>
    intro sz fuel h
    cases fuel with
    | zero => omega
    | succ fuel2 =>
      have : ds_list_drain (Nat.succ fuel2) (some { nodes := d :: rest, size := sz })
          = d :: ds_list_drain fuel2 (some { nodes := rest, size := sz - 1 }) := rfl
      rw [this, ih (sz - 1) fuel2 (by simpa using h)]

/-- C8.  For every finite sequence of payloads pushed with ds_list_push_back
onto a freshly created list, draining the list with ds_list_pop_front until
it returns NULL yields exactly those payloads in insertion order. -/
theorem c8_push_back_pop_front_fifo (α : Type) (xs : List α) :
    ds_list_drain (xs.length + 1)
      (ds_list_push_back_fold xs (some ds_list_create)) = xs := by
  rw [push_back_fold_nodes xs ds_list_create]
  have h0 : (ds_list_create : ds_list α).nodes = [] := rfl
  have h1 : (ds_list_create : ds_list α).size = 0 := rfl
  rw [h0, h1]
  simpa using drain_eq_nodes xs (0 + xs.length) (xs.length + 1) (by omega)

/-! ## Claim C9: explicit is_empty queries of stack and tree -/

/-- C9.  The stack and the tree each expose an explicit is_empty query
(like the queue), and both return 1 (true) exactly when the handle is NULL
or the container holds no elements (NULL top, respectively NULL root).
They are functions of the handle alone, so no container state is mutated. -/
theorem c9_stack_tree_is_empty (α : Type) (S : Option (ds_stack α))
    (T : Option (ds_tree α)) :
    (ds_stack_is_empty S = 1 ↔ S = none ∨ ∃ s, S = some s ∧ s.top = []) ∧
    (ds_tree_is_empty T = 1 ↔
      T = none ∨ ∃ t, T = some t ∧ t.root = ds_tree_node.nil) := by
  constructor
  · cases S with
    | none => simp [ds_stack_is_empty]
    | some s => cases hs : s.top <;> simp [ds_stack_is_empty, hs]
  · cases T with
    | none => simp [ds_tree_is_empty]
    | some t => cases ht : t.root <;> simp [ds_tree_is_empty, ht]

/-! ## Claim C2: BST removal correctness -/

/-- C2.  On a well-formed BST (cached size equal to the node count, ordering
invariant holding, comparator total): when the descent for the target stops
at a node with two non-empty children, ds_tree_remove returns DS_OK, the
resulting tree still satisfies the BST ordering invariant, its size is
exactly one less, and its in-order traversal is the old one with exactly
the found node's payload deleted at its position (the successor's payload
is copied into the found node and the successor node, which has no left
child, is unlinked); when no payload compares equal to the target,
ds_tree_remove returns DS_ERR_NOTFOUND and the container, size included,
is unchanged. -/
theorem c2_remove_two_children_and_notfound (α : Type) (c : α → α → Int)
    (laws : CmpLaws c) (t : ds_tree α) (x : α)
    (hwf : t.size = count_nodes t.root)
    (hbst : is_bst c t.root = true) :
    (tree_found_two c x t.root = true →
      ∃ t2 d pre post,
        ds_tree_remove (some t) (some x) (some c) = (DS_OK, some t2) ∧
        (∃ fl fr, tree_find_subtree c x t.root = some (ds_tree_node.node d fl fr)) ∧
        is_bst c t2.root = true ∧
        t2.size + 1 = t.size ∧
        inorder t.root = pre ++ d :: post ∧
        inorder t2.root = pre ++ post) ∧
    ((∀ y ∈ inorder t.root, c x y ≠ 0) →
      ds_tree_remove (some t) (some x) (some c) = (DS_ERR_NOTFOUND, some t)) := by
  constructor
  · intro hfound
    obtain ⟨d, ld, ll, lr, rd, rl, rr, hf⟩ := found_two_spec c x t.root hfound
    obtain ⟨t2root, pre0, post0, hrem, hin, hin2⟩ :=
      remove_go_found c x t.root d (ds_tree_node.node ld ll lr)
        (ds_tree_node.node rd rl rr) hf
    have hpos : 0 < count_nodes t.root := find_subtree_count_pos c x t.root _ hf
    refine ⟨{ root := t2root, size := t.size - 1 }, d,
      pre0 ++ inorder (ds_tree_node.node ld ll lr),
      inorder (ds_tree_node.node rd rl rr) ++ post0,
      ?_, ⟨_, _, hf⟩, ?_, ?_, ?_, ?_⟩
    · simp [ds_tree_remove, hrem]
    · exact is_bst_remove_go c laws x t.root t2root hbst hrem
    · show t.size - 1 + 1 = t.size
      omega
    · rw [hin]
      simp [List.append_assoc]
    · show inorder t2root = _
      rw [hin2]
      simp [List.append_assoc]
  · intro hnone
    have h := remove_go_none c x t.root hnone
    simp [ds_tree_remove, h]

/-- C2, witness: removing 50 from the BST holding 30, 50, 70 (50 at the
root with two children). -/
theorem c2_remove_witness :
    ∃ t2 d pre post,
      ds_tree_remove
          (some { root := ds_tree_node.node (50 : Int)
                    (ds_tree_node.node 30 .nil .nil)
                    (ds_tree_node.node 70 .nil .nil), size := 3 })
          (some 50) (some cmp_int) = (DS_OK, some t2) ∧
      (∃ fl fr, tree_find_subtree cmp_int 50
          (ds_tree_node.node (50 : Int) (ds_tree_node.node 30 .nil .nil)
            (ds_tree_node.node 70 .nil .nil))
        = some (ds_tree_node.node d fl fr)) ∧
      is_bst cmp_int t2.root = true ∧
      t2.size + 1 = 3 ∧
      ([30, 50, 70] : List Int) = pre ++ d :: post ∧
      inorder t2.root = pre ++ post :=
  (c2_remove_two_children_and_notfound Int cmp_int cmp_int_laws
    { root := ds_tree_node.node 50 (ds_tree_node.node 30 .nil .nil)
        (ds_tree_node.node 70 .nil .nil), size := 3 }
    50 (by decide) (by decide)).1 (by decide)

/-! ## Claim C3: insertion sequences keep the ordering invariant -/

/-- C3.  For every sequence of ds_tree_insert calls with a fixed total
three-way comparator, starting from a freshly created tree (whatever the
outcome of each call's allocation), the in-order traversal of the result
is non-decreasing under the comparator and no two of its payloads compare
equal (in either orientation). -/
theorem c3_insert_sequence_ordering (α : Type) (c : α → α → Int)
    (laws : CmpLaws c) (ops : List (α × Bool)) (t : ds_tree α)
    (hres : ds_tree_insert_fold c ops (some ds_tree_create) = some t) :
    (inorder t.root).Pairwise (fun a b => c a b ≤ 0) ∧
    (inorder t.root).Pairwise (fun a b => c a b ≠ 0 ∧ c b a ≠ 0) := by
  have hbst : is_bst c t.root = true :=
    insert_fold_bst c ops ds_tree_create rfl t hres
  have hp := is_bst_pairwise c laws t.root hbst
  constructor
  · exact hp.imp (fun h => le_of_lt h)
  · refine hp.imp (fun h => ⟨ne_of_lt h, ?_⟩)
    exact ne_of_gt ((laws.flip_lt _ _).1 h)

/-- C3, witness: inserting 3, then 1, then 2 with a failing allocation. -/
theorem c3_insert_sequence_witness :
    ([1, 3] : List Int).Pairwise (fun a b => cmp_int a b ≤ 0) ∧
    ([1, 3] : List Int).Pairwise (fun a b => cmp_int a b ≠ 0 ∧ cmp_int b a ≠ 0) :=
  c3_insert_sequence_ordering Int cmp_int cmp_int_laws
    [(3, true), (1, true), (2, false)]
    { root := ds_tree_node.node 3 (ds_tree_node.node 1 .nil .nil) .nil, size := 2 }
    (by decide)

/-! ## Claim C6: duplicate insert is a success-reporting no-op -/

/-- C6.  Inserting a payload that compares equal to a payload already held
by a BST returns DS_OK and leaves the container (root structure and cached
size) unchanged: the would-be node is discarded. -/
theorem c6_duplicate_insert_noop (α : Type) (c : α → α → Int)
    (laws : CmpLaws c) (t : ds_tree α) (x y : α)
    (hbst : is_bst c t.root = true) (hy : y ∈ inorder t.root)
    (hxy : c x y = 0) :
    ds_tree_insert (some t) (some x) (some c) true = (DS_OK, some t) := by
  have h := insert_go_duplicate c laws x t.root hbst y hy hxy
  simp [ds_tree_insert, h]

/-- C6, witness: inserting 2 into the singleton tree holding 2. -/
theorem c6_duplicate_insert_witness :
    ds_tree_insert
        (some { root := ds_tree_node.node (2 : Int) .nil .nil, size := 1 })
        (some 2) (some cmp_int) true
      = (DS_OK, some { root := ds_tree_node.node (2 : Int) .nil .nil, size := 1 }) :=
  c6_duplicate_insert_noop Int cmp_int cmp_int_laws
    { root := ds_tree_node.node 2 .nil .nil, size := 1 }
    2 2 (by decide) (by decide) (by decide)

/-! ## Claim C10: successor splice loses no other node -/

/-- C10.  In the two-children case of ds_tree_remove, when the in-order
successor (the leftmost node of the found node's right subtree) has a right
child, that right subtree is spliced into the successor's former parent
slot: the removal succeeds and the in-order traversal afterwards is the
old one minus exactly the found node's payload, so the successor's payload
(copied into the found node) and every payload of the successor's right
subtree remain reachable. -/
theorem c10_successor_splice_keeps_nodes (α : Type) (c : α → α → Int)
    (x : α) (t : ds_tree α) (d s sd : α) (fl fr sl sr : ds_tree_node α)
    (hfind : tree_find_subtree c x t.root = some (ds_tree_node.node d fl fr))
    (_hfl : fl ≠ ds_tree_node.nil)
    (hsucc : leftmost_subtree fr
      = ds_tree_node.node s ds_tree_node.nil (ds_tree_node.node sd sl sr)) :
    ∃ t2 pre post,
      ds_tree_remove (some t) (some x) (some c) = (DS_OK, some t2) ∧
      inorder t.root = pre ++ d :: post ∧
      inorder t2.root = pre ++ post ∧
      s ∈ inorder t2.root ∧
      ∀ y ∈ inorder (ds_tree_node.node sd sl sr), y ∈ inorder t2.root := by
  obtain ⟨t2root, pre0, post0, hrem, hin, hin2⟩ :=
    remove_go_found c x t.root d fl fr hfind
  obtain ⟨rest, hrest⟩ := leftmost_subtree_inorder fr s ds_tree_node.nil
    (ds_tree_node.node sd sl sr) hsucc
  have hs_mem : s ∈ inorder fr := by
    rw [hrest]
    simp [inorder]
  have hsub_mem : ∀ y ∈ inorder (ds_tree_node.node sd sl sr), y ∈ inorder fr := by
    intro y hy
    rw [hrest]
    apply List.mem_append_left
    show y ∈ inorder ds_tree_node.nil ++ s :: inorder (ds_tree_node.node sd sl sr)
    simp only [inorder, List.nil_append, List.mem_cons]
    exact Or.inr hy
  refine ⟨{ root := t2root, size := t.size - 1 }, pre0 ++ inorder fl,
    inorder fr ++ post0, ?_, ?_, ?_, ?_, ?_⟩
  · simp [ds_tree_remove, hrem]
  · rw [hin]
    simp [List.append_assoc]
  · show inorder t2root = _
    rw [hin2]
    simp [List.append_assoc]
  · show s ∈ inorder t2root
    rw [hin2]
    simp only [List.mem_append]
    tauto
  · intro y hy
    have hyfr := hsub_mem y hy
    show y ∈ inorder t2root
    rw [hin2]
    simp only [List.mem_append]
    tauto

/-- C10, witness: removing 50 whose successor 60 has the right child 65;
after the removal 60 sits at the found position and 65 took the slot 60
occupied, nothing but the payload 50 is gone. -/
theorem c10_successor_splice_witness :
    ∃ t2 pre post,
      ds_tree_remove
          (some { root := ds_tree_node.node (50 : Int)
                    (ds_tree_node.node 30 .nil .nil)
                    (ds_tree_node.node 70
                      (ds_tree_node.node 60 .nil (ds_tree_node.node 65 .nil .nil))
                      (ds_tree_node.node 80 .nil .nil)), size := 6 })
          (some 50) (some cmp_int) = (DS_OK, some t2) ∧
      ([30, 50, 60, 65, 70, 80] : List Int) = pre ++ 50 :: post ∧
      inorder t2.root = pre ++ post ∧
      (60 : Int) ∈ inorder t2.root ∧
      ∀ y ∈ inorder (ds_tree_node.node (65 : Int) .nil .nil), y ∈ inorder t2.root :=
  c10_successor_splice_keeps_nodes Int cmp_int 50
    { root := ds_tree_node.node 50 (ds_tree_node.node 30 .nil .nil)
        (ds_tree_node.node 70
          (ds_tree_node.node 60 .nil (ds_tree_node.node 65 .nil .nil))
          (ds_tree_node.node 80 .nil .nil)), size := 6 }
    50 60 65 (ds_tree_node.node 30 .nil .nil)
    (ds_tree_node.node 70
      (ds_tree_node.node 60 .nil (ds_tree_node.node 65 .nil .nil))
      (ds_tree_node.node 80 .nil .nil))
    .nil .nil (by decide) (by decide) (by decide)

end DS
